import Mathlib

/-!
Verification of `dukascopy_tick_data_fetcher.py` (class `Dukascopy_Tick_Data_Fetcher`).

The program fetches tick data for a list of symbols, reconciles it with a local
partitioned CSV cache, merges, clips to the desired window, converts the
timezone and exports one CSV per symbol.

Shallow embedding conventions:
* A pandas `DataFrame` indexed by timestamp is a `List Tick`; the list order is
  the row order of the frame.
* Timestamps are `Nat` seconds since the Unix epoch (UTC).  `Timestamp.floor('D')`
  is integer truncation to a multiple of `86400`; `.index.year` / `.index.month`
  are computed by the standard civil-calendar conversion.
* `df[~df.index.duplicated(keep='first')]` / `keep='last'` are `dedupKeepFirst` /
  `dedupKeepLast`; `sort_index` is a stable merge sort on the timestamp.
* `df.loc[start:end]` (pandas label slicing on a sorted datetime index, which is
  inclusive of BOTH endpoints) is `clipWindow`.
* The external collaborators are parameters: the Dukascopy fetch is a function
  `Nat → Nat → Except String (List Tick)` (it may fail), and the pytz timezone
  lookup is a validity predicate `String → Bool`.
* File system state for one symbol's cache is a map `Int × Nat → Option (List Tick)`
  from (year, month) partition keys to partition contents.
-/

/-- One tick record: row of the DataFrame.  Index column `timestamp` plus the
four numeric fields `bidPrice`, `askPrice`, `bidVolume`, `askVolume`
(modelled as integers; the claims under verification do not depend on the
arithmetic of prices, only on equality of records). -/
structure Tick where
  timestamp : Nat
  bidPrice : Int
  askPrice : Int
  bidVolume : Int
  askVolume : Int
deriving DecidableEq, Repr

/-- Seconds in one calendar day (UTC has no leap seconds in pandas' model). -/
def dayLength : Nat := 86400

/-- `pd.Timestamp.floor('D')`: truncate a timestamp down to the start of its
calendar day. -/
def floorDay (t : Nat) : Nat := t / dayLength * dayLength

/-- The timestamps column of a frame. -/
def tsList (df : List Tick) : List Nat := df.map (·.timestamp)

/-- `df.index.max()` for a non-empty frame (source line 42). On `[]` it yields
`0`; the source only calls it on non-empty frames. -/
def maxTimestamp (df : List Tick) : Nat :=
  df.foldl (fun m r => max m r.timestamp) 0

/-- `df[~df.index.duplicated(keep='first')]` with an accumulator of timestamps
already seen: keep each row whose timestamp has not occurred earlier. -/
def dedupKeepFirstFrom (seen : List Nat) : List Tick → List Tick
  | [] => []
  | r :: rs =>
      if seen.contains r.timestamp then dedupKeepFirstFrom seen rs
      else r :: dedupKeepFirstFrom (r.timestamp :: seen) rs

/-- `df[~df.index.duplicated(keep='first')]` (source line 73). -/
def dedupKeepFirst (df : List Tick) : List Tick := dedupKeepFirstFrom [] df

/-- `df[~df.index.duplicated(keep='last')]` (source line 126): keep each row
whose timestamp does not occur again later. -/
def dedupKeepLast : List Tick → List Tick
  | [] => []
  | r :: rs =>
      if rs.any (fun s => s.timestamp == r.timestamp) then dedupKeepLast rs
      else r :: dedupKeepLast rs

/-- Non-strict timestamp order between rows. -/
def tsLe (a b : Tick) : Prop := a.timestamp ≤ b.timestamp

instance : DecidableRel tsLe := fun a b => Nat.decLe a.timestamp b.timestamp

instance : IsTotal Tick tsLe := ⟨fun a b => Nat.le_total a.timestamp b.timestamp⟩

instance : IsTrans Tick tsLe := ⟨fun _ _ _ hab hbc => Nat.le_trans hab hbc⟩

/-- `df.sort_index()` (source lines 74, 127): sort by timestamp.  pandas'
sort is stable, but both source call sites sort a frame just deduplicated by
timestamp, where every sort by timestamp produces the same list; an insertion
sort is used so the definition evaluates by kernel reduction. -/
def sortByTs (df : List Tick) : List Tick :=
  df.insertionSort tsLe

/-- Lines 72-74 of `get`: `pd.concat(dfs_to_combine)`, drop duplicated
timestamps keeping the first occurrence, then sort by timestamp. -/
def mergedOf (dfs : List (List Tick)) : List Tick :=
  sortByTs (dedupKeepFirst dfs.flatten)

/-- Lines 125-127 of `_save_local_data`: `pd.concat([existing_df, group_df])`,
drop duplicated timestamps keeping the last occurrence, then sort. -/
def partitionMerge (existing new : List Tick) : List Tick :=
  sortByTs (dedupKeepLast (existing ++ new))

/-- `df.loc[start_date:end_date]` on a datetime-sorted index (source line 76):
pandas label slicing keeps every row with `start ≤ timestamp ≤ end`,
INCLUSIVE of both endpoints. -/
def clipWindow (startD endD : Nat) (df : List Tick) : List Tick :=
  df.filter (fun r => decide (startD ≤ r.timestamp) && decide (r.timestamp ≤ endD))

/-- Lines 41-53 of `get`: given the loaded local data and the desired start,
compute the clean retained subset and the fetch-window start
(`fetch_start_date`).  If local data exists, `fetch_start_date` is the last
local timestamp floored to its day and the clean subset is the strict-past
part; otherwise the clean subset is empty and the window starts at `start_date`. -/
def reconcile (localDf : List Tick) (startD : Nat) : List Tick × Nat :=
  if localDf.isEmpty then ([], startD)
  else
    let fs := floorDay (maxTimestamp localDf)
    (localDf.filter (fun r => decide (r.timestamp < fs)), fs)

/-- Observable outcome of one iteration of the per-symbol loop in `get`
(source lines 29-92).  `fetchCalled` records the arguments passed to
`_fetch_from_dukascopy` when the fetch is invoked; `savedToCache` the frame
passed to `_save_local_data`; `output` the frame written to the processed
CSV (timezone conversion does not change the underlying instants, so the
record list is the observable content); `fetchError` the logged error message
when the fetch raised and the iteration was abandoned via `continue`. -/
structure SymbolResult where
  fetchCalled : Option (Nat × Nat)
  savedToCache : Option (List Tick)
  output : Option (List Tick)
  fetchError : Option String
deriving DecidableEq, Repr

/-- Lines 68-92 of `get`: combine `dfs_to_combine`, clip to the desired
window, and export unless empty. -/
def finishCombine (startD endD : Nat) (fc : Option (Nat × Nat))
    (saved : Option (List Tick)) (dfs : List (List Tick)) : SymbolResult :=
  if dfs.isEmpty then ⟨fc, saved, none, none⟩
  else
    let clipped := clipWindow startD endD (mergedOf dfs)
    if clipped.isEmpty then ⟨fc, saved, none, none⟩
    else ⟨fc, saved, some clipped, none⟩

/-- One iteration of the symbol loop (source lines 36-92), with the external
fetch passed in as a fallible function and the already-loaded local data as
`localDf`.  Mirrors the control flow: reconcile, fetch if
`fetch_start_date < end_date` (on error print and `continue`), save non-empty
fetched data, then combine/clip/export. -/
def processSymbol (fetch : Nat → Nat → Except String (List Tick))
    (localDf : List Tick) (startD endD : Nat) : SymbolResult :=
  let rc := reconcile localDf startD
  let dfs0 : List (List Tick) := if rc.1.isEmpty then [] else [rc.1]
  if rc.2 < endD then
    match fetch rc.2 endD with
    | Except.error e => ⟨some (rc.2, endD), none, none, some e⟩
    | Except.ok newDf =>
        if newDf.isEmpty then
          finishCombine startD endD (some (rc.2, endD)) none dfs0
        else
          finishCombine startD endD (some (rc.2, endD)) (some newDf) (dfs0 ++ [newDf])
  else
    finishCombine startD endD none none dfs0

/-- The value of `dfs_to_combine` reaching line 72 of `get` (empty when the
fetch raised, since the iteration is abandoned before combining). -/
def dfsToCombine (fetch : Nat → Nat → Except String (List Tick))
    (localDf : List Tick) (startD endD : Nat) : List (List Tick) :=
  let rc := reconcile localDf startD
  let dfs0 : List (List Tick) := if rc.1.isEmpty then [] else [rc.1]
  if rc.2 < endD then
    match fetch rc.2 endD with
    | Except.error _ => []
    | Except.ok newDf => if newDf.isEmpty then dfs0 else dfs0 ++ [newDf]
  else dfs0

/-- The symbol loop of `get` (lines 29-92): each `(dukascopy_symbol,
target_symbol)` pair is processed independently; the external fetch and the
local cache load are keyed by the dukascopy symbol. -/
def runGet (fetch : String → Nat → Nat → Except String (List Tick))
    (load : String → List Tick) (startD endD : Nat)
    (symbols : List (String × String)) : List (String × SymbolResult) :=
  symbols.map (fun p => (p.2, processSymbol (fetch p.1) (load p.1) startD endD))

/-- The mutable state of a `Dukascopy_Tick_Data_Fetcher` instance: the single
field assigned in `__init__` (line 10). -/
structure FetcherState where
  broker_timezone : String
deriving DecidableEq, Repr

/-- `__init__` (lines 9-10). -/
def initFetcher : FetcherState := ⟨"Europe/Helsinki"⟩

/-- `set_broker_timezone` (lines 143-149), with the pytz timezone lookup as a
validity predicate: `pytz.timezone(name)` succeeds iff `isValidTz name`.
On success the field is assigned; on `UnknownTimeZoneError` the message is
printed and the state is left untouched. -/
def set_broker_timezone (isValidTz : String → Bool) (st : FetcherState)
    (timezone_name : String) : FetcherState :=
  if isValidTz timezone_name then { broker_timezone := timezone_name } else st

/-- Result of one call to `get`: the timezone string used for conversion and
output naming (line 18), the per-symbol outcomes, and the instance state when
the call returns. -/
structure GetResult where
  usedTimezone : String
  results : List (String × SymbolResult)
  finalState : FetcherState
deriving DecidableEq, Repr

/-- `get` (lines 12-92) at the instance level: `target_tz_str` is the
`broker_timezone` argument when given, else the stored default (line 18);
the body never assigns `self.broker_timezone`, so the state is returned
unchanged. -/
def get (st : FetcherState) (fetch : String → Nat → Nat → Except String (List Tick))
    (load : String → List Tick) (startD endD : Nat)
    (symbols : List (String × String)) (broker_timezone : Option String) : GetResult :=
  { usedTimezone := broker_timezone.getD st.broker_timezone
    results := runGet fetch load startD endD symbols
    finalState := st }

/-- Convert a day count since the Unix epoch to a proleptic Gregorian civil
date `(year, month, day)` — the calendar pandas' `DatetimeIndex.year/.month`
follow.  Standard era-based civil-from-days computation. -/
def civilFromDays (z0 : Int) : Int × Nat × Nat :=
  let z : Int := z0 + 719468
  let era : Int := (if 0 ≤ z then z else z - 146096) / 146097
  let doe : Nat := (z - era * 146097).toNat
  let yoe : Nat := (doe - doe / 1460 + doe / 36524 - doe / 146096) / 365
  let y : Int := (yoe : Int) + era * 400
  let doy : Nat := doe - (365 * yoe + yoe / 4 - yoe / 100)
  let mp : Nat := (5 * doy + 2) / 153
  let d : Nat := doy - (153 * mp + 2) / 5 + 1
  let m : Nat := if mp < 10 then mp + 3 else mp - 9
  (if m ≤ 2 then y + 1 else y, m, d)

/-- `(df_to_save.index.year, df_to_save.index.month)` for one timestamp: the
(year, month) partition key used by the `groupby` on line 117. -/
def monthKey (t : Nat) : Int × Nat :=
  let c := civilFromDays ((t : Int) / (dayLength : Int))
  (c.1, c.2.1)

/-- The rows of `df_to_save` falling in the `groupby([year, month])` group of
key `key` (line 117); row order within a group is preserved by pandas. -/
def groupFor (dfToSave : List Tick) (key : Int × Nat) : List Tick :=
  dfToSave.filter (fun r => decide (monthKey r.timestamp = key))

/-- `_save_local_data` (lines 116-131), denotationally: the resulting content
of each (year, month) partition file.  A partition whose group is empty is
not touched; an existing partition is merged with its group keeping the new
value on timestamp conflict and re-sorted; a fresh partition receives exactly
its group. -/
def saveLocalData (cache : Int × Nat → Option (List Tick)) (dfToSave : List Tick) :
    (Int × Nat) → Option (List Tick) := fun key =>
  let group := groupFor dfToSave key
  if group.isEmpty then cache key
  else
    match cache key with
    | some existing => some (partitionMerge existing group)
    | none => some group

/-- `os.path.join` for one relative component. -/
def pathJoin (a b : String) : String := a ++ "/" ++ b

/-- `dukascopy_symbol.replace('/', '_')` (line 33): replace every slash
character by an underscore (written on the character list so that it reduces
definitionally). -/
def replaceSlashes (s : String) : String :=
  ⟨s.data.map (fun c => if c = '/' then '_' else c)⟩

/-- Python `f"{month:02d}"`: zero-pad to two digits. -/
def pad2 (month : Nat) : String :=
  if month < 10 then "0" ++ toString month else toString month

/-- Line 13 of `get`: `raw_data_dir = os.path.join(output_dir, "raw_dukascopy_data")`. -/
def rawDataDir (output_dir : String) : String :=
  pathJoin output_dir "raw_dukascopy_data"

/-- Line 33 of `get`: `symbol_path = os.path.join(raw_data_dir, dukascopy_symbol.replace('/', '_'))`. -/
def symbolPath (output_dir dukascopy_symbol : String) : String :=
  pathJoin (rawDataDir output_dir) (replaceSlashes dukascopy_symbol)

/-- Line 101 of `_load_local_data`:
`os.path.join(symbol_path, str(dt.year), f"{dt.month:02d}.csv")`. -/
def loadPartitionPath (output_dir dukascopy_symbol : String) (year : Int) (month : Nat) : String :=
  pathJoin (pathJoin (symbolPath output_dir dukascopy_symbol) (toString year)) (pad2 month ++ ".csv")

/-- Lines 118-120 of `_save_local_data`: `month_dir = os.path.join(symbol_path,
str(year))`, then `file_path = os.path.join(month_dir, f"{month:02d}.csv")`. -/
def savePartitionPath (output_dir dukascopy_symbol : String) (year : Int) (month : Nat) : String :=
  let month_dir := pathJoin (symbolPath output_dir dukascopy_symbol) (toString year)
  pathJoin month_dir (pad2 month ++ ".csv")

/-- Modelled from the spec (section 6, "Cache file layout"): the partition
path as the spec words it, namely
`<output_dir>/raw_cache/<symbol_with_slashes_as_underscores>/<year>/<month:2-digit>.csv`. -/
def specCachePath (output_dir sym : String) (year : Int) (month : Nat) : String :=
  output_dir ++ "/raw_cache/" ++ replaceSlashes sym ++ "/" ++ toString year
    ++ "/" ++ pad2 month ++ ".csv"

/-- The spec's cache-layout formula with the directory name the code actually
uses (`raw_dukascopy_data` instead of the spec's `raw_cache`). -/
def specCachePathAmended (output_dir sym : String) (year : Int) (month : Nat) : String :=
  output_dir ++ "/raw_dukascopy_data/" ++ replaceSlashes sym ++ "/" ++ toString year
    ++ "/" ++ pad2 month ++ ".csv"

/-! ### Concrete fixtures (used to instantiate the verified properties) -/

/-- Cache frame whose most recent calendar day (epoch day 2) holds only a
partial day of data: records at 0 and at 172800 = 2 days. -/
def localPartial : List Tick := [⟨0, 1, 0, 0, 0⟩, ⟨172800, 5, 0, 0, 0⟩]

/-- Fetch stub whose reply shares timestamp 0 with the retained clean cache
subset of `localPartial`, plus one record inside the fetch window. -/
def fetchConflict : Nat → Nat → Except String (List Tick) :=
  fun _ _ => Except.ok [⟨0, 99, 0, 0, 0⟩, ⟨172900, 7, 0, 0, 0⟩]

/-- Fetch stub that always succeeds with one fixed record. -/
def fetchOk : Nat → Nat → Except String (List Tick) :=
  fun _ _ => Except.ok [⟨50, 1, 0, 0, 0⟩]

/-- Cache frame with one full day and a record at the day boundary 86450. -/
def localTwoDays : List Tick := [⟨10, 1, 0, 0, 0⟩, ⟨86450, 2, 0, 0, 0⟩]

/-- Cache frame whose maximum timestamp 172800 sits exactly at a day
boundary: the cache is current through a desired end of 172800. -/
def localCurrent : List Tick := [⟨86400, 1, 0, 0, 0⟩, ⟨172800, 2, 0, 0, 0⟩]

/-- Fetch stub returning one record strictly inside the window and one record
exactly at the desired end. -/
def fetchAtEnd : Nat → Nat → Except String (List Tick) :=
  fun _ _ => Except.ok [⟨100, 1, 0, 0, 0⟩, ⟨500, 2, 0, 0, 0⟩]

/-- Per-symbol fetch: symbol "A" always raises, every other symbol succeeds. -/
def fetchBySymbol : String → Nat → Nat → Except String (List Tick) :=
  fun sym => if sym = "A" then fun _ _ => Except.error "boom" else fetchOk

/-- Empty local cache for every symbol. -/
def loadEmpty : String → List Tick := fun _ => []

/-- Cache with one existing partition for (1970, 1). -/
def cacheJan1970 : (Int × Nat) → Option (List Tick) :=
  fun key => if key = ((1970 : Int), 1) then
    some [⟨0, 1, 0, 0, 0⟩, ⟨10, 3, 0, 0, 0⟩] else none

/-- Frame to persist whose timestamp 10 collides with a row of the existing
(1970, 1) partition of `cacheJan1970`. -/
def dfColliding : List Tick := [⟨10, 2, 0, 0, 0⟩]

/-- A sorted, duplicate-free partition. -/
def partSorted : List Tick := [⟨0, 1, 0, 0, 0⟩, ⟨5, 2, 0, 0, 0⟩]

/-- Records the cache already contains (a subset of `partSorted`). -/
def partSubset : List Tick := [⟨5, 2, 0, 0, 0⟩]

/-- pytz stub: exactly two names resolve. -/
def validTzStub : String → Bool :=
  fun s => s == "America/New_York" || s == "Europe/Helsinki"

/-! ### Order and uniqueness infrastructure on tick frames -/

/-- Strict timestamp order between rows. -/
def tsLt (a b : Tick) : Prop := a.timestamp < b.timestamp

instance : DecidableRel tsLt := fun a b => Nat.decLt a.timestamp b.timestamp

instance : IsAntisymm Tick tsLt := ⟨fun _ _ h1 h2 => (Nat.lt_asymm h1 h2).elim⟩

theorem mem_tsList {df : List Tick} {t : Nat} :
    t ∈ tsList df ↔ ∃ r ∈ df, r.timestamp = t := by
  simp [tsList]

theorem foldl_max_le (df : List Tick) (a : Nat) :
    a ≤ df.foldl (fun m r => max m r.timestamp) a := by
  induction df generalizing a with
  | nil => exact Nat.le_refl a
  | cons r rs ih => exact Nat.le_trans (Nat.le_max_left a r.timestamp) (ih _)

theorem mem_le_foldl_max {df : List Tick} {r : Tick} (a : Nat) (h : r ∈ df) :
    r.timestamp ≤ df.foldl (fun m r => max m r.timestamp) a := by
  induction df generalizing a with
  | nil => cases h
  | cons x xs ih =>
      rcases List.mem_cons.mp h with h | h
      · subst h
        exact Nat.le_trans (Nat.le_max_right a r.timestamp) (foldl_max_le xs _)
      · exact ih _ h

theorem le_maxTimestamp {df : List Tick} {r : Tick} (h : r ∈ df) :
    r.timestamp ≤ maxTimestamp df :=
  mem_le_foldl_max 0 h

theorem foldl_max_mem (df : List Tick) (a : Nat) :
    df.foldl (fun m r => max m r.timestamp) a = a
      ∨ df.foldl (fun m r => max m r.timestamp) a ∈ tsList df := by
  induction df generalizing a with
  | nil => exact Or.inl rfl
  | cons r rs ih =>
      rcases ih (max a r.timestamp) with h | h
      · rcases Nat.le_total a r.timestamp with hle | hle
        · right
          rw [List.foldl_cons, h, Nat.max_eq_right hle]
          exact mem_tsList.mpr ⟨r, List.mem_cons_self _ _, rfl⟩
        · left
          rw [List.foldl_cons, h, Nat.max_eq_left hle]
      · right
        rw [List.foldl_cons]
        rcases mem_tsList.mp h with ⟨s, hs, hts⟩
        exact mem_tsList.mpr ⟨s, List.mem_cons_of_mem _ hs, hts⟩

theorem maxTimestamp_mem {df : List Tick} (h : df ≠ []) :
    maxTimestamp df ∈ tsList df := by
  rcases foldl_max_mem df 0 with h0 | h0
  · cases df with
    | nil => exact absurd rfl h
    | cons r rs =>
        have hr : r.timestamp ≤ maxTimestamp (r :: rs) :=
          le_maxTimestamp (List.mem_cons_self _ _)
        have : maxTimestamp (r :: rs) = 0 := h0
        have hr0 : r.timestamp = 0 := Nat.le_antisymm (this ▸ hr) (Nat.zero_le _)
        rw [this]
        exact mem_tsList.mpr ⟨r, List.mem_cons_self _ _, hr0⟩
  · exact h0

theorem mem_of_mem_dedupKeepFirstFrom {seen : List Nat} {xs : List Tick} {r : Tick}
    (h : r ∈ dedupKeepFirstFrom seen xs) : r ∈ xs := by
  induction xs generalizing seen with
  | nil => simp [dedupKeepFirstFrom] at h
  | cons x rest ih =>
      by_cases hc : seen.contains x.timestamp
      · simp only [dedupKeepFirstFrom, if_pos hc] at h
        exact List.mem_cons_of_mem _ (ih h)
      · simp only [dedupKeepFirstFrom, if_neg hc] at h
        rcases List.mem_cons.mp h with h | h
        · exact h ▸ List.mem_cons_self _ _
        · exact List.mem_cons_of_mem _ (ih h)

theorem find?_dedupKeepFirstFrom {t : Nat} (xs : List Tick) (seen : List Nat)
    (h : seen.contains t = false) :
    (dedupKeepFirstFrom seen xs).find? (fun r => r.timestamp == t)
      = xs.find? (fun r => r.timestamp == t) := by
  induction xs generalizing seen with
  | nil => rfl
  | cons x rest ih =>
      by_cases hc : seen.contains x.timestamp
      · have hne : (x.timestamp == t) = false := by
          cases hb : (x.timestamp == t) with
          | false => rfl
          | true =>
              have hxt : x.timestamp = t := beq_iff_eq.mp hb
              rw [hxt] at hc
              rw [h] at hc
              exact absurd hc Bool.false_ne_true
        simp only [dedupKeepFirstFrom, if_pos hc, List.find?_cons, hne]
        exact ih seen h
      · simp only [dedupKeepFirstFrom, if_neg hc, List.find?_cons]
        cases hb : (x.timestamp == t) with
        | true => rfl
        | false =>
            have hne' : x.timestamp ≠ t := by simpa using hb
            have h' : (x.timestamp :: seen).contains t = false := by
              simp only [List.contains_cons, Bool.or_eq_false_iff]
              refine ⟨by simpa using (Ne.symm hne'), h⟩
            exact ih _ h'

theorem tsList_dedupKeepFirstFrom (xs : List Tick) (seen : List Nat) :
    (tsList (dedupKeepFirstFrom seen xs)).Nodup
      ∧ ∀ t, seen.contains t = true → t ∉ tsList (dedupKeepFirstFrom seen xs) := by
  induction xs generalizing seen with
  | nil => exact ⟨List.nodup_nil, fun t _ h => by cases h⟩
  | cons x rest ih =>
      by_cases hc : seen.contains x.timestamp
      · simpa only [dedupKeepFirstFrom, if_pos hc] using ih seen
      · obtain ⟨ihn, ihs⟩ := ih (x.timestamp :: seen)
        have hxnotin : x.timestamp ∉ tsList (dedupKeepFirstFrom (x.timestamp :: seen) rest) :=
          ihs x.timestamp (by simp [List.contains_cons])
        constructor
        · simp only [dedupKeepFirstFrom, if_neg hc, tsList, List.map_cons, List.nodup_cons]
          exact ⟨hxnotin, ihn⟩
        · intro t ht
          have htm : t ∈ seen := by simpa using ht
          simp only [dedupKeepFirstFrom, if_neg hc, tsList, List.map_cons, List.mem_cons]
          rintro (h | h)
          · exact hc (h ▸ ht)
          · exact ihs t (by simp [List.contains_cons, htm]) h

theorem tsList_dedupKeepFirst_nodup (xs : List Tick) :
    (tsList (dedupKeepFirst xs)).Nodup :=
  (tsList_dedupKeepFirstFrom xs []).1

theorem find?_dedupKeepFirst (xs : List Tick) (t : Nat) :
    (dedupKeepFirst xs).find? (fun r => r.timestamp == t)
      = xs.find? (fun r => r.timestamp == t) :=
  find?_dedupKeepFirstFrom xs [] rfl

theorem mem_of_mem_dedupKeepFirst {xs : List Tick} {r : Tick}
    (h : r ∈ dedupKeepFirst xs) : r ∈ xs :=
  mem_of_mem_dedupKeepFirstFrom h

theorem mem_of_mem_dedupKeepLast {xs : List Tick} {r : Tick}
    (h : r ∈ dedupKeepLast xs) : r ∈ xs := by
  induction xs with
  | nil => simp [dedupKeepLast] at h
  | cons x rest ih =>
      by_cases hc : rest.any (fun s => s.timestamp == x.timestamp)
      · simp only [dedupKeepLast, if_pos hc] at h
        exact List.mem_cons_of_mem _ (ih h)
      · simp only [dedupKeepLast, if_neg hc] at h
        rcases List.mem_cons.mp h with h | h
        · exact h ▸ List.mem_cons_self _ _
        · exact List.mem_cons_of_mem _ (ih h)

theorem find?_dedupKeepLast (xs : List Tick) (t : Nat) :
    (dedupKeepLast xs).find? (fun r => r.timestamp == t)
      = xs.reverse.find? (fun r => r.timestamp == t) := by
  induction xs with
  | nil => rfl
  | cons x rest ih =>
      rw [List.reverse_cons, List.find?_append]
      by_cases hc : rest.any (fun s => s.timestamp == x.timestamp)
      · rw [dedupKeepLast, if_pos hc, ih]
        cases hb : (x.timestamp == t) with
        | true =>
            have hxt : x.timestamp = t := beq_iff_eq.mp hb
            have hsome : (rest.reverse.find? (fun r => r.timestamp == t)).isSome = true := by
              rcases List.any_eq_true.mp hc with ⟨s, hs, hst⟩
              refine List.find?_isSome.mpr ⟨s, List.mem_reverse.mpr hs, ?_⟩
              rw [beq_iff_eq.mp hst, hxt]
              exact beq_iff_eq.mpr rfl
            rw [Option.or_of_isSome hsome]
        | false =>
            have : List.find? (fun r => r.timestamp == t) [x] = none := by
              simp [List.find?, hb]
            rw [this, Option.or_none]
      · rw [dedupKeepLast, if_neg hc]
        cases hb : (x.timestamp == t) with
        | true =>
            have hxt : x.timestamp = t := beq_iff_eq.mp hb
            have hnone : rest.reverse.find? (fun r => r.timestamp == t) = none := by
              refine List.find?_eq_none.mpr ?_
              intro s hs hp
              refine hc ?_
              refine List.any_eq_true.mpr ⟨s, List.mem_reverse.mp hs, ?_⟩
              rw [beq_iff_eq.mp hp, hxt]
              exact beq_iff_eq.mpr rfl
            rw [hnone, List.find?_cons, hb]
            simp [List.find?, hb, Option.or]
        | false =>
            rw [List.find?_cons, hb, ih]
            have : List.find? (fun r => r.timestamp == t) [x] = none := by
              simp [List.find?, hb]
            rw [this, Option.or_none]

theorem tsList_dedupKeepLast_nodup (xs : List Tick) :
    (tsList (dedupKeepLast xs)).Nodup := by
  induction xs with
  | nil => exact List.nodup_nil
  | cons x rest ih =>
      by_cases hc : rest.any (fun s => s.timestamp == x.timestamp)
      · simpa only [dedupKeepLast, if_pos hc] using ih
      · simp only [dedupKeepLast, if_neg hc, tsList, List.map_cons, List.nodup_cons]
        refine ⟨?_, ih⟩
        intro hmem
        rcases mem_tsList.mp hmem with ⟨s, hs, hts⟩
        refine hc (List.any_eq_true.mpr ⟨s, mem_of_mem_dedupKeepLast hs, ?_⟩)
        exact beq_iff_eq.mpr hts

theorem sortByTs_perm (df : List Tick) : (sortByTs df).Perm df :=
  List.perm_insertionSort tsLe df

theorem sortByTs_pairwise (df : List Tick) : List.Pairwise tsLe (sortByTs df) :=
  List.sorted_insertionSort tsLe df

theorem tsList_perm {l l' : List Tick} (h : l.Perm l') : (tsList l).Perm (tsList l') :=
  h.map _

theorem find?_eq_of_perm {l l' : List Tick} {t : Nat} (hp : l.Perm l')
    (hn : (tsList l).Nodup) :
    l'.find? (fun r => r.timestamp == t) = l.find? (fun r => r.timestamp == t) := by
  cases hfind : l.find? (fun r => r.timestamp == t) with
  | none =>
      refine List.find?_eq_none.mpr ?_
      intro x hx
      exact List.find?_eq_none.mp hfind x (hp.mem_iff.mpr hx)
  | some a =>
      have ha_mem : a ∈ l := List.mem_of_find?_eq_some hfind
      have ha_p : a.timestamp = t := by simpa using List.find?_some hfind
      have hsome : (l'.find? (fun r => r.timestamp == t)).isSome = true :=
        List.find?_isSome.mpr ⟨a, hp.mem_iff.mp ha_mem, by simpa using ha_p⟩
      rcases Option.isSome_iff_exists.mp hsome with ⟨b, hb⟩
      have hb_mem : b ∈ l := hp.mem_iff.mpr (List.mem_of_find?_eq_some hb)
      have hb_p : b.timestamp = t := by simpa using List.find?_some hb
      have hab : a = b := by
        refine List.inj_on_of_nodup_map (f := Tick.timestamp) ?_ ha_mem hb_mem ?_
        · exact hn
        · rw [ha_p, hb_p]
      rw [hb, hab]

theorem tsList_nodup_of_pairwise_lt {l : List Tick} (h : List.Pairwise tsLt l) :
    (tsList l).Nodup := by
  have hp : List.Pairwise (fun a b : Nat => a ≠ b) (l.map (·.timestamp)) :=
    List.pairwise_map.mpr (h.imp (fun hab => Nat.ne_of_lt hab))
  exact hp

theorem pairwise_lt_of_le_nodup {l : List Tick} (h1 : List.Pairwise tsLe l)
    (h2 : (tsList l).Nodup) : List.Pairwise tsLt l := by
  have hne : List.Pairwise (fun a b : Tick => a.timestamp ≠ b.timestamp) l := by
    have : List.Pairwise (fun a b : Nat => a ≠ b) (l.map (·.timestamp)) := h2
    exact List.pairwise_map.mp this
  refine (h1.and hne).imp ?_
  intro a b hab
  exact Nat.lt_of_le_of_ne hab.1 hab.2

theorem mergedOf_pairwise (dfs : List (List Tick)) :
    List.Pairwise tsLt (mergedOf dfs) := by
  have hnd : (tsList (dedupKeepFirst dfs.flatten)).Nodup :=
    tsList_dedupKeepFirst_nodup dfs.flatten
  have hnd' : (tsList (mergedOf dfs)).Nodup := by
    have hperm := tsList_perm (sortByTs_perm (dedupKeepFirst dfs.flatten))
    exact hnd.perm hperm.symm
  exact pairwise_lt_of_le_nodup (sortByTs_pairwise _) hnd'

theorem find?_mergedOf (dfs : List (List Tick)) (t : Nat) :
    (mergedOf dfs).find? (fun r => r.timestamp == t)
      = dfs.flatten.find? (fun r => r.timestamp == t) := by
  unfold mergedOf
  rw [find?_eq_of_perm (sortByTs_perm _).symm
    (tsList_dedupKeepFirst_nodup dfs.flatten)]
  exact find?_dedupKeepFirst dfs.flatten t

theorem mem_of_mem_mergedOf {dfs : List (List Tick)} {r : Tick}
    (h : r ∈ mergedOf dfs) : r ∈ dfs.flatten :=
  mem_of_mem_dedupKeepFirst ((sortByTs_perm _).mem_iff.mp h)

theorem partitionMerge_pairwise (existing new : List Tick) :
    List.Pairwise tsLt (partitionMerge existing new) := by
  have hnd : (tsList (dedupKeepLast (existing ++ new))).Nodup :=
    tsList_dedupKeepLast_nodup (existing ++ new)
  have hnd' : (tsList (partitionMerge existing new)).Nodup := by
    have hperm := tsList_perm (sortByTs_perm (dedupKeepLast (existing ++ new)))
    exact hnd.perm hperm.symm
  exact pairwise_lt_of_le_nodup (sortByTs_pairwise _) hnd'

theorem find?_partitionMerge (existing new : List Tick) (t : Nat) :
    (partitionMerge existing new).find? (fun r => r.timestamp == t)
      = (existing ++ new).reverse.find? (fun r => r.timestamp == t) := by
  unfold partitionMerge
  rw [find?_eq_of_perm (sortByTs_perm _).symm
    (tsList_dedupKeepLast_nodup (existing ++ new))]
  exact find?_dedupKeepLast (existing ++ new) t

theorem mem_of_mem_partitionMerge {existing new : List Tick} {r : Tick}
    (h : r ∈ partitionMerge existing new) : r ∈ existing ++ new :=
  mem_of_mem_dedupKeepLast ((sortByTs_perm _).mem_iff.mp h)

theorem finishCombine_fetchCalled (startD endD : Nat) (fc : Option (Nat × Nat))
    (saved : Option (List Tick)) (dfs : List (List Tick)) :
    (finishCombine startD endD fc saved dfs).fetchCalled = fc := by
  unfold finishCombine
  split
  · rfl
  · dsimp only
    split <;> rfl

theorem finishCombine_output (startD endD : Nat) (fc : Option (Nat × Nat))
    (saved : Option (List Tick)) (dfs : List (List Tick)) (out : List Tick)
    (h : (finishCombine startD endD fc saved dfs).output = some out) :
    out = clipWindow startD endD (mergedOf dfs) := by
  unfold finishCombine at h
  split at h
  · cases h
  · dsimp only at h
    split at h
    · cases h
    · exact (Option.some.inj h).symm

theorem processSymbol_fetchCalled (fetch : Nat → Nat → Except String (List Tick))
    (localDf : List Tick) (startD endD : Nat) :
    (processSymbol fetch localDf startD endD).fetchCalled
      = if (reconcile localDf startD).2 < endD
          then some ((reconcile localDf startD).2, endD) else none := by
  unfold processSymbol
  dsimp only
  by_cases h : (reconcile localDf startD).2 < endD
  · rw [if_pos h, if_pos h]
    cases hf : fetch (reconcile localDf startD).2 endD with
    | error e => rfl
    | ok newDf =>
        dsimp only
        by_cases hE : newDf.isEmpty
        · rw [if_pos hE]
          exact finishCombine_fetchCalled ..
        · rw [if_neg hE]
          exact finishCombine_fetchCalled ..
  · rw [if_neg h, if_neg h]
    exact finishCombine_fetchCalled ..

theorem processSymbol_noFetch (fetch : Nat → Nat → Except String (List Tick))
    (localDf : List Tick) (startD endD : Nat)
    (h : ¬ (reconcile localDf startD).2 < endD) :
    processSymbol fetch localDf startD endD
      = finishCombine startD endD none none
          (if (reconcile localDf startD).1.isEmpty then [] else [(reconcile localDf startD).1]) := by
  unfold processSymbol
  dsimp only
  rw [if_neg h]

theorem processSymbol_fetchFail (fetch : Nat → Nat → Except String (List Tick))
    (localDf : List Tick) (startD endD : Nat) (msg : String)
    (h : (reconcile localDf startD).2 < endD)
    (herr : fetch (reconcile localDf startD).2 endD = Except.error msg) :
    processSymbol fetch localDf startD endD
      = ⟨some ((reconcile localDf startD).2, endD), none, none, some msg⟩ := by
  unfold processSymbol
  dsimp only
  rw [if_pos h, herr]

theorem processSymbol_output_some (fetch : Nat → Nat → Except String (List Tick))
    (localDf : List Tick) (startD endD : Nat) (out : List Tick)
    (h : (processSymbol fetch localDf startD endD).output = some out) :
    out = clipWindow startD endD (mergedOf (dfsToCombine fetch localDf startD endD)) := by
  unfold processSymbol at h
  unfold dfsToCombine
  dsimp only at h ⊢
  by_cases hlt : (reconcile localDf startD).2 < endD
  · rw [if_pos hlt] at h ⊢
    cases hf : fetch (reconcile localDf startD).2 endD with
    | error e =>
        rw [hf] at h
        simp at h
    | ok newDf =>
        rw [hf] at h
        dsimp only at h ⊢
        by_cases hE : newDf.isEmpty
        · rw [if_pos hE] at h ⊢
          exact finishCombine_output _ _ _ _ _ _ h
        · rw [if_neg hE] at h ⊢
          exact finishCombine_output _ _ _ _ _ _ h
  · rw [if_neg hlt] at h ⊢
    exact finishCombine_output _ _ _ _ _ _ h

/-- C7: `set_broker_timezone` rejects an invalid timezone name — the stored
default broker timezone (the instance's only state) retains exactly its prior
value and nothing else changes — and stores any valid name as the new
default. -/
theorem c7_set_broker_timezone (isValidTz : String → Bool) (st : FetcherState)
    (name : String) :
    (isValidTz name = false → set_broker_timezone isValidTz st name = st)
    ∧ (isValidTz name = true → set_broker_timezone isValidTz st name = ⟨name⟩) := by
  constructor <;> intro h <;> simp [set_broker_timezone, h]

/-- Witness for C7: with a two-zone pytz stub, an unknown name leaves the
freshly constructed instance unchanged and a known name replaces the default. -/
theorem c7_witness :
    validTzStub "Invalid/Timezone" = false
    ∧ set_broker_timezone validTzStub initFetcher "Invalid/Timezone" = initFetcher
    ∧ validTzStub "America/New_York" = true
    ∧ set_broker_timezone validTzStub initFetcher "America/New_York"
        = ⟨"America/New_York"⟩ :=
  ⟨rfl, (c7_set_broker_timezone validTzStub initFetcher "Invalid/Timezone").1 rfl,
   rfl, (c7_set_broker_timezone validTzStub initFetcher "America/New_York").2 rfl⟩

/-- C10: an explicit broker-timezone override passed to `get` is used for
that run only; the instance's stored default is unchanged by the run, and a
subsequent run without an override uses the previously stored default. -/
theorem c10_get_override_frame (st : FetcherState)
    (fetch : String → Nat → Nat → Except String (List Tick))
    (load : String → List Tick) (startD endD : Nat)
    (symbols : List (String × String)) (tz : String) :
    (get st fetch load startD endD symbols (some tz)).usedTimezone = tz
    ∧ (get st fetch load startD endD symbols (some tz)).finalState = st
    ∧ (get ((get st fetch load startD endD symbols (some tz)).finalState)
        fetch load startD endD symbols none).usedTimezone = st.broker_timezone :=
  ⟨rfl, rfl, rfl⟩

/-- C8 counterexample: the claim locates cache partition files under
`<output_dir>/raw_cache/...`, but line 13 of the source uses the directory
`raw_dukascopy_data`; at output dir "out", symbol "EUR/USD", year 2025,
month 4, the path the code reads and writes differs from the claimed one. -/
theorem c8_counterexample :
    loadPartitionPath "out" "EUR/USD" 2025 4
        = "out/raw_dukascopy_data/EUR_USD/2025/04.csv"
    ∧ specCachePath "out" "EUR/USD" 2025 4 = "out/raw_cache/EUR_USD/2025/04.csv"
    ∧ loadPartitionPath "out" "EUR/USD" 2025 4
        ≠ specCachePath "out" "EUR/USD" 2025 4 := by
  refine ⟨by decide, by decide, by decide⟩

/-- C8 (amended: the cache directory component is `raw_dukascopy_data`, not
`raw_cache`): for every symbol and (year, month), the partition file read by
`_load_local_data` and the one written by `_save_local_data` are the same
path, equal to `<output_dir>/raw_dukascopy_data/<symbol with slashes replaced
by underscores>/<year>/<two-digit month>.csv`. -/
theorem c8_cache_layout (output_dir sym : String) (year : Int) (month : Nat) :
    loadPartitionPath output_dir sym year month
        = specCachePathAmended output_dir sym year month
    ∧ savePartitionPath output_dir sym year month
        = specCachePathAmended output_dir sym year month := by
  constructor
  · unfold loadPartitionPath specCachePathAmended symbolPath rawDataDir pathJoin
    simp only [String.append_assoc]
    congr 1
  · unfold savePartitionPath specCachePathAmended symbolPath rawDataDir pathJoin
    simp only [String.append_assoc]
    congr 1

/-- C1: when loading local cache yields a non-empty frame with maximum
timestamp `T` (and the fetch window is still due, `floorDay T < desired end`),
the reconciler sets the fetch-window start to `D = floorDay T` — the
truncation of `T` down to the start of its calendar day (`D` is a day
boundary, `D ≤ T < D + 1 day`) — retains as the clean subset exactly the
cached records with timestamp strictly before `D`, and invokes the external
fetch with exactly the window `(D, desired end)`. -/
theorem c1_reconcile_window (fetch : Nat → Nat → Except String (List Tick))
    (localDf : List Tick) (startD endD : Nat)
    (hne : localDf ≠ []) (hlt : floorDay (maxTimestamp localDf) < endD) :
    (∀ r ∈ localDf, r.timestamp ≤ maxTimestamp localDf)
    ∧ maxTimestamp localDf ∈ tsList localDf
    ∧ floorDay (maxTimestamp localDf) % dayLength = 0
    ∧ floorDay (maxTimestamp localDf) ≤ maxTimestamp localDf
    ∧ maxTimestamp localDf < floorDay (maxTimestamp localDf) + dayLength
    ∧ (reconcile localDf startD).2 = floorDay (maxTimestamp localDf)
    ∧ (∀ r, r ∈ (reconcile localDf startD).1
          ↔ r ∈ localDf ∧ r.timestamp < floorDay (maxTimestamp localDf))
    ∧ (processSymbol fetch localDf startD endD).fetchCalled
        = some (floorDay (maxTimestamp localDf), endD) := by
  have hE : localDf.isEmpty = false := by
    cases localDf with
    | nil => exact absurd rfl hne
    | cons a l => rfl
  have hday : 0 < dayLength := by norm_num [dayLength]
  have hrc2 : (reconcile localDf startD).2 = floorDay (maxTimestamp localDf) := by
    simp [reconcile, hE]
  refine ⟨fun r hr => le_maxTimestamp hr, maxTimestamp_mem hne, ?_, ?_, ?_, hrc2, ?_, ?_⟩
  · unfold floorDay
    exact Nat.mul_mod_left _ _
  · exact Nat.div_mul_le_self _ _
  · unfold floorDay dayLength
    omega
  · intro r
    simp [reconcile, hE, List.mem_filter]
  · rw [processSymbol_fetchCalled, hrc2, if_pos (hrc2 ▸ hlt)]

/-- Witness for C1: a cache with a full day 0 and a partial-day record at
86450 makes the window start at day boundary 86400 and the fetch is invoked
with (86400, 90000). -/
theorem c1_witness :
    localTwoDays ≠ []
    ∧ floorDay (maxTimestamp localTwoDays) < 90000
    ∧ (reconcile localTwoDays 0).2 = floorDay (maxTimestamp localTwoDays)
    ∧ (processSymbol fetchOk localTwoDays 0 90000).fetchCalled
        = some (floorDay (maxTimestamp localTwoDays), 90000) :=
  ⟨by decide, by decide,
   (c1_reconcile_window fetchOk localTwoDays 0 90000 (by decide) (by decide)).2.2.2.2.2.1,
   (c1_reconcile_window fetchOk localTwoDays 0 90000 (by decide) (by decide)).2.2.2.2.2.2.2⟩

/-- C2 counterexample: the claim says the freshly fetched record is kept when
a clean cached record and a fetched record share a timestamp, but lines 72-73
concatenate the clean frame FIRST and drop duplicates with `keep='first'`; at
timestamp 0 the cached record (bid 1) survives and the fetched record
(bid 99) is discarded. -/
theorem c2_counterexample :
    (reconcile localPartial 0).1 = [⟨0, 1, 0, 0, 0⟩]
    ∧ fetchConflict 172800 200000
        = Except.ok [⟨0, 99, 0, 0, 0⟩, ⟨172900, 7, 0, 0, 0⟩]
    ∧ (processSymbol fetchConflict localPartial 0 200000).output
        = some [⟨0, 1, 0, 0, 0⟩, ⟨172900, 7, 0, 0, 0⟩]
    ∧ (⟨0, 99, 0, 0, 0⟩ : Tick) ∉ [(⟨0, 1, 0, 0, 0⟩ : Tick), ⟨172900, 7, 0, 0, 0⟩] :=
  ⟨by decide, rfl, by decide, by decide⟩

/-- C2 (amended: on a timestamp conflict between a clean cached record and a
freshly fetched record, the merge keeps the CACHED record — the clean frame
is listed first and duplicates are dropped with `keep='first'` — not the
fetched one): the merged dataset is sorted strictly ascending — hence no two
records share a timestamp — and its record at any timestamp `t` is the first
record of `clean ++ fetched` carrying `t`. -/
theorem c2_merge_dedup (clean newDf : List Tick) :
    List.Pairwise tsLt (mergedOf [clean, newDf])
    ∧ ∀ t, (mergedOf [clean, newDf]).find? (fun r => r.timestamp == t)
        = (clean ++ newDf).find? (fun r => r.timestamp == t) := by
  refine ⟨mergedOf_pairwise _, ?_⟩
  intro t
  rw [find?_mergedOf]
  simp

theorem isEmpty_false_of_ne_nil {l : List Tick} (h : l ≠ []) : l.isEmpty = false := by
  cases l with
  | nil => exact absurd rfl h
  | cons a t => rfl

/-- C3: `_save_local_data` groups records into one partition per (year, month)
(membership in a group is exactly "record of the frame whose month key is the
partition key"); an untouched partition keeps its content; a fresh partition
receives exactly its group; an existing partition becomes the merge of its
records with the group — strictly sorted by timestamp (so duplicate-free) and
holding, at each timestamp, the LAST record of `existing ++ group`, i.e. the
new record on conflict. -/
theorem c3_save_partitions (cache : (Int × Nat) → Option (List Tick))
    (df : List Tick) (key : Int × Nat) :
    (∀ r, r ∈ groupFor df key ↔ r ∈ df ∧ monthKey r.timestamp = key)
    ∧ (groupFor df key = [] → saveLocalData cache df key = cache key)
    ∧ (groupFor df key ≠ [] → cache key = none →
        saveLocalData cache df key = some (groupFor df key))
    ∧ (∀ existing, groupFor df key ≠ [] → cache key = some existing →
        saveLocalData cache df key = some (partitionMerge existing (groupFor df key))
        ∧ List.Pairwise tsLt (partitionMerge existing (groupFor df key))
        ∧ ∀ t, (partitionMerge existing (groupFor df key)).find?
              (fun r => r.timestamp == t)
            = ((existing ++ groupFor df key).reverse).find?
              (fun r => r.timestamp == t)) := by
  refine ⟨?_, ?_, ?_, ?_⟩
  · intro r
    simp [groupFor, List.mem_filter]
  · intro h
    have hE : (groupFor df key).isEmpty = true := by simp [List.isEmpty_iff, h]
    simp [saveLocalData, hE]
  · intro h hnone
    have hE : (groupFor df key).isEmpty = false := isEmpty_false_of_ne_nil h
    simp [saveLocalData, hE, hnone]
  · intro existing h hsome
    have hE : (groupFor df key).isEmpty = false := isEmpty_false_of_ne_nil h
    exact ⟨by simp [saveLocalData, hE, hsome], partitionMerge_pairwise _ _,
      fun t => find?_partitionMerge _ _ t⟩

/-- Witness for C3: persisting a record at timestamp 10 into a cache whose
(1970, 1) partition already holds rows at 0 and 10 rewrites the partition
with the new row winning at timestamp 10. -/
theorem c3_witness :
    groupFor dfColliding ((1970 : Int), 1) ≠ []
    ∧ cacheJan1970 ((1970 : Int), 1) = some [⟨0, 1, 0, 0, 0⟩, ⟨10, 3, 0, 0, 0⟩]
    ∧ saveLocalData cacheJan1970 dfColliding ((1970 : Int), 1)
        = some [⟨0, 1, 0, 0, 0⟩, ⟨10, 2, 0, 0, 0⟩] :=
  ⟨by decide, rfl,
    (((c3_save_partitions cacheJan1970 dfColliding ((1970 : Int), 1)).2.2.2
        [⟨0, 1, 0, 0, 0⟩, ⟨10, 3, 0, 0, 0⟩] (by decide) rfl).1).trans (by decide)⟩

/-- C4: the partition merge-by-timestamp-with-newest-wins is idempotent — if
every record the save brings is already present in a (strictly sorted, hence
duplicate-free) partition, rewriting reproduces the partition exactly; hence
a second run in which the source returns already-cached data leaves every
cache partition identical. -/
theorem c4_partition_merge_idempotent (p q : List Tick)
    (hs : List.Pairwise tsLt p) (hq : ∀ r ∈ q, r ∈ p) :
    partitionMerge p q = p := by
  have hpn : (tsList p).Nodup := tsList_nodup_of_pairwise_lt hs
  have hmp : List.Pairwise tsLt (partitionMerge p q) := partitionMerge_pairwise p q
  have hmn : (tsList (partitionMerge p q)).Nodup := tsList_nodup_of_pairwise_lt hmp
  have hnodup_m : (partitionMerge p q).Nodup := List.Nodup.of_map _ hmn
  have hnodup_p : p.Nodup := List.Nodup.of_map _ hpn
  have hmem : ∀ x, x ∈ partitionMerge p q ↔ x ∈ p := by
    intro x
    constructor
    · intro hx
      rcases List.mem_append.mp (mem_of_mem_partitionMerge hx) with h | h
      · exact h
      · exact hq x h
    · intro hx
      have hsome : (((p ++ q).reverse).find?
          (fun r => r.timestamp == x.timestamp)).isSome = true :=
        List.find?_isSome.mpr
          ⟨x, List.mem_reverse.mpr (List.mem_append.mpr (Or.inl hx)), by simp⟩
      rcases Option.isSome_iff_exists.mp hsome with ⟨b, hb⟩
      have hb_merge : (partitionMerge p q).find?
          (fun r => r.timestamp == x.timestamp) = some b := by
        rw [find?_partitionMerge]
        exact hb
      have hb_mem_m : b ∈ partitionMerge p q := List.mem_of_find?_eq_some hb_merge
      have hb_mem_p : b ∈ p := by
        rcases List.mem_append.mp (mem_of_mem_partitionMerge hb_mem_m) with h | h
        · exact h
        · exact hq b h
      have hb_ts : b.timestamp = x.timestamp := by
        simpa using List.find?_some hb_merge
      have hbx : b = x :=
        List.inj_on_of_nodup_map (f := Tick.timestamp) hpn hb_mem_p hx hb_ts
      exact hbx ▸ hb_mem_m
  have hperm : (partitionMerge p q).Perm p :=
    (List.perm_ext_iff_of_nodup hnodup_m hnodup_p).mpr hmem
  exact List.eq_of_perm_of_sorted hperm hmp hs

/-- Witness for C4: re-merging a record the sorted partition already holds
reproduces the partition unchanged. -/
theorem c4_witness :
    List.Pairwise tsLt partSorted
    ∧ (∀ r ∈ partSubset, r ∈ partSorted)
    ∧ partitionMerge partSorted partSubset = partSorted :=
  ⟨by decide, by decide,
   c4_partition_merge_idempotent partSorted partSubset (by decide) (by decide)⟩

theorem reconcile_fst_subset (localDf : List Tick) (startD : Nat) :
    ∀ r ∈ (reconcile localDf startD).1, r ∈ localDf := by
  intro r hr
  unfold reconcile at hr
  by_cases hE : localDf.isEmpty
  · rw [if_pos hE] at hr
    exact absurd hr (List.not_mem_nil r)
  · rw [if_neg hE] at hr
    dsimp only at hr
    exact (List.mem_filter.mp hr).1

/-- C5: the external fetch is invoked iff the computed fetch-window start is
strictly before the desired end; when the cache is current through the end
(`D ≥ desired end`) and the clipped cached data is non-empty, no fetch
happens and the output is still produced — the clipped merge of the clean
cached subset, every record of which comes from the cached data. -/
theorem c5_fetch_iff (fetch : Nat → Nat → Except String (List Tick))
    (localDf : List Tick) (startD endD : Nat) :
    ((processSymbol fetch localDf startD endD).fetchCalled.isSome
        ↔ (reconcile localDf startD).2 < endD)
    ∧ (endD ≤ (reconcile localDf startD).2 →
        clipWindow startD endD (mergedOf [(reconcile localDf startD).1]) ≠ [] →
          (processSymbol fetch localDf startD endD).fetchCalled = none
          ∧ (processSymbol fetch localDf startD endD).output
              = some (clipWindow startD endD (mergedOf [(reconcile localDf startD).1]))
          ∧ ∀ r ∈ clipWindow startD endD (mergedOf [(reconcile localDf startD).1]),
              r ∈ localDf) := by
  constructor
  · rw [processSymbol_fetchCalled]
    by_cases h : (reconcile localDf startD).2 < endD
    · simp [h]
    · simp [h]
  · intro hge hne
    have hnlt : ¬ (reconcile localDf startD).2 < endD := Nat.not_lt.mpr hge
    have hcleanne : (reconcile localDf startD).1 ≠ [] := by
      intro hc
      apply hne
      rw [hc]
      rfl
    have hE : (reconcile localDf startD).1.isEmpty = false :=
      isEmpty_false_of_ne_nil hcleanne
    have hres : processSymbol fetch localDf startD endD
        = finishCombine startD endD none none [(reconcile localDf startD).1] := by
      rw [processSymbol_noFetch _ _ _ _ hnlt]
      simp [hE]
    have hclipE :
        (clipWindow startD endD (mergedOf [(reconcile localDf startD).1])).isEmpty
          = false := isEmpty_false_of_ne_nil hne
    have hfin : finishCombine startD endD none none [(reconcile localDf startD).1]
        = ⟨none, none,
            some (clipWindow startD endD (mergedOf [(reconcile localDf startD).1])),
            none⟩ := by
      unfold finishCombine
      simp [hclipE]
    refine ⟨by rw [hres, hfin], by rw [hres, hfin], ?_⟩
    intro r hr
    have h1 : r ∈ mergedOf [(reconcile localDf startD).1] := (List.mem_filter.mp hr).1
    have h2 : r ∈ ([(reconcile localDf startD).1] : List (List Tick)).flatten :=
      mem_of_mem_mergedOf h1
    have h3 : r ∈ (reconcile localDf startD).1 := by simpa using h2
    exact reconcile_fst_subset _ _ r h3

/-- Witness for C5: a cache current through the desired end 172800 triggers
no fetch and still yields an output drawn from the cached records. -/
theorem c5_witness :
    172800 ≤ (reconcile localCurrent 0).2
    ∧ clipWindow 0 172800 (mergedOf [(reconcile localCurrent 0).1]) ≠ []
    ∧ (processSymbol fetchOk localCurrent 0 172800).fetchCalled = none
    ∧ (processSymbol fetchOk localCurrent 0 172800).output
        = some [⟨86400, 1, 0, 0, 0⟩] := by
  have h := (c5_fetch_iff fetchOk localCurrent 0 172800).2 (by decide) (by decide)
  exact ⟨by decide, by decide, h.1, h.2.1.trans (by decide)⟩

/-- C6: a fetch failure for one symbol is contained — that symbol's iteration
produces no cache write and no export, only the logged message, while every
symbol before and after it in the list is processed exactly as it would be
on its own (the per-symbol loop recovers with `continue`; no retry occurs:
the failing symbol's result records the single attempted call). -/
theorem c6_fetch_failure_isolated
    (fetch : String → Nat → Nat → Except String (List Tick))
    (load : String → List Tick) (startD endD : Nat)
    (pre post : List (String × String)) (A : String × String) (msg : String)
    (herr : ∀ s e, fetch A.1 s e = Except.error msg)
    (hcall : (reconcile (load A.1) startD).2 < endD) :
    runGet fetch load startD endD (pre ++ A :: post)
      = runGet fetch load startD endD pre
        ++ (A.2, ⟨some ((reconcile (load A.1) startD).2, endD), none, none, some msg⟩)
          :: runGet fetch load startD endD post := by
  unfold runGet
  rw [List.map_append, List.map_cons]
  rw [processSymbol_fetchFail (fetch A.1) (load A.1) startD endD msg hcall (herr _ _)]

/-- Witness for C6: symbol "A" (second of three) fails with "boom"; the first
and third symbols are still fully processed and exported. -/
theorem c6_witness :
    runGet fetchBySymbol loadEmpty 0 100 [("P", "P1"), ("A", "A1"), ("B", "B1")]
      = [("P1", ⟨some (0, 100), some [⟨50, 1, 0, 0, 0⟩], some [⟨50, 1, 0, 0, 0⟩], none⟩),
         ("A1", ⟨some (0, 100), none, none, some "boom"⟩),
         ("B1", ⟨some (0, 100), some [⟨50, 1, 0, 0, 0⟩], some [⟨50, 1, 0, 0, 0⟩], none⟩)] := by
  have h := c6_fetch_failure_isolated fetchBySymbol loadEmpty 0 100
    [("P", "P1")] [("B", "B1")] ("A", "A1") "boom" (fun _ _ => rfl) (by decide)
  exact h.trans (by decide)

/-- C9 counterexample: the claim says the final dataset is the merge
restricted to the half-open window [start, end) with records at exactly `end`
excluded, but line 76 slices with `.loc[start_date:end_date]`, which is
inclusive of the end label: with desired window start 0 and end 500, the
record at timestamp 500 = end survives into the exported dataset. -/
theorem c9_counterexample :
    (processSymbol fetchAtEnd [] 0 500).output
        = some [⟨100, 1, 0, 0, 0⟩, ⟨500, 2, 0, 0, 0⟩]
    ∧ (⟨500, 2, 0, 0, 0⟩ : Tick) ∈ [(⟨100, 1, 0, 0, 0⟩ : Tick), ⟨500, 2, 0, 0, 0⟩]
    ∧ (⟨500, 2, 0, 0, 0⟩ : Tick).timestamp = 500 := by
  refine ⟨by decide, by decide, rfl⟩

/-- C9 (amended: the final restriction is to the CLOSED interval
[start, end] — pandas label slicing keeps a record at exactly `end`): whenever
a run exports a dataset, that dataset is the merged result restricted to
`start ≤ timestamp ≤ end`: a record is exported iff it is in the merge of the
combined frames and its timestamp lies in the closed desired window. -/
theorem c9_clip_closed_interval (fetch : Nat → Nat → Except String (List Tick))
    (localDf : List Tick) (startD endD : Nat) (out : List Tick)
    (h : (processSymbol fetch localDf startD endD).output = some out) :
    out = clipWindow startD endD (mergedOf (dfsToCombine fetch localDf startD endD))
    ∧ ∀ r, r ∈ out ↔ (r ∈ mergedOf (dfsToCombine fetch localDf startD endD)
        ∧ startD ≤ r.timestamp ∧ r.timestamp ≤ endD) := by
  have heq := processSymbol_output_some fetch localDf startD endD out h
  refine ⟨heq, ?_⟩
  intro r
  rw [heq]
  simp [clipWindow, List.mem_filter]

/-- Witness for C9 (amended): the exported dataset of the
`c9_counterexample` run is exactly the closed-interval clip of its merge. -/
theorem c9_witness :
    (processSymbol fetchAtEnd [] 0 500).output
        = some [⟨100, 1, 0, 0, 0⟩, ⟨500, 2, 0, 0, 0⟩]
    ∧ [(⟨100, 1, 0, 0, 0⟩ : Tick), ⟨500, 2, 0, 0, 0⟩]
        = clipWindow 0 500 (mergedOf (dfsToCombine fetchAtEnd [] 0 500)) := by
  have h : (processSymbol fetchAtEnd [] 0 500).output
      = some [⟨100, 1, 0, 0, 0⟩, ⟨500, 2, 0, 0, 0⟩] := by decide
  exact ⟨h, (c9_clip_closed_interval fetchAtEnd [] 0 500 _ h).1⟩
